import Mathlib

/-!
Verification of the tagging pipeline of `relna` (file
`relna/learning/taggers.py`, class `TranscriptionFactorTagger`).

The shallow embedding below translates `TranscriptionFactorTagger.tag`
and its helpers into Lean.  Text is modelled as `List Char` (Python `in`
on strings is the substring test `substrB`), Python dicts as
association lists with a `lookup` function, and the three external
services (GNormPlus, Swissprot, GOTerms) as a record of pure functions
supplied as a parameter.  Resource acquisition/release and the external
calls made by `tag` are recorded in an event trace so that the temporal
claims about connection scoping can be stated.
-/

namespace Relna

/-- Python's substring test `needle in haystack` (true for the empty
needle), via an explicit prefix test at every position. -/
def listPrefixB : List Char → List Char → Bool
  | [], _ => true
  | _ :: _, [] => false
  | a :: as, b :: bs => a == b && listPrefixB as bs

/-- `needle in haystack` on strings, as in the Python guard
`gene[2] in part.text` and `'Conclusion' in doc.get_text()`. -/
def substrB (needle : List Char) : List Char → Bool
  | [] => needle.isEmpty
  | c :: cs => listPrefixB needle (c :: cs) || substrB needle cs

/-- `nala.utils.PRO_CLASS_ID`: the default (protein) entity class. -/
def PRO_CLASS_ID : String := "e_1"

/-- `nala.utils.MUT_CLASS_ID`: the special (transcription-factor) entity
class assigned when a GO term of the mention is in the loaded term list. -/
def MUT_CLASS_ID : String := "e_2"

/-- A gene mention as returned by GNormPlus: the code indexes it as
`gene[0]` (document-global start offset), `gene[1]` (end offset, unused by
`tag`), `gene[2]` (matched text) and `gene[3]` (Entrez gene id). -/
structure Gene where
  start : Int
  stop : Int
  text : List Char
  geneId : String
deriving DecidableEq, Repr

/-- The normalisation dict attached to an entity.  The code builds either
`{ENTREZ_GENE_ID: gene[3], UNIPROT_ID: genes_mapping[gene[3]]}` or, on a
`KeyError`, `{'EntrezGeneID': gene[3]}`; we model it as the Entrez id
together with the optional list of UniProt ids. -/
structure NormDict where
  entrez : String
  uniprot : Option (List String)
deriving DecidableEq, Repr

/-- The fields of `nala.structures.data.Entity` that `tag` sets. -/
structure Entity where
  class_id : String
  offset : Int
  text : List Char
  confidence : ℚ
  norm_dict : NormDict
  normalized_text : List Char
deriving DecidableEq, Repr

/-- A part of a document: its text and the two entity collections
(`part.annotations` for gold, `part.predicted_annotations` for predicted).
`Part.get_size()` is the length of the text. -/
structure Part where
  text : List Char
  annotations : List Entity
  predicted_annotations : List Entity
deriving DecidableEq, Repr

/-- A document: its parts, keyed and ordered as in `doc.parts.items()`. -/
structure Document where
  parts : List (String × Part)
deriving DecidableEq, Repr

/-- A dataset: its documents, keyed and ordered as in
`dataset.documents.items()`. -/
structure Dataset where
  documents : List (String × Document)
deriving DecidableEq, Repr

/-- The three external-service connection kinds used by `tag`. -/
inductive Res where
  | gnormplus
  | swissprot
  | goterms
deriving DecidableEq, Repr

/-- Observable events of one run of `tag`: connection acquisition and
release (the `with` statements) and the external calls. -/
inductive Event where
  | acquire (r : Res)
  | release (r : Res)
  | fetchByText (docid : String)
  | fetchByPmid (docid : String)
  | normalizeCall (ids : List String)
  | resolveCall (ids : List String)
deriving DecidableEq, Repr

/-- The external services, as pure functions.  `getGenesForText` receives
the document id and the document text (the code passes the document object
and its id to `gnorm.get_genes_for_text`). -/
structure Services where
  getGenesForText : String → List Char → List Gene
  getGenesForPmid : String → List Gene
  uniquifyGenes : List Gene → List String
  getUniprotidForEntrezGeneid : List String → List (String × List String)
  getGotermsForUniprotId : List String → List (String × List String)

/-- The tagger: holds the GO-term list loaded by `read_go_terms` at
construction time (`self.transfac_go_terms`). -/
structure TranscriptionFactorTagger where
  transfac_go_terms : List String

/-- Python dict lookup `m[k]` on an association list, `none` on `KeyError`. -/
def lookup {α : Type} (m : List (String × α)) (k : String) : Option α :=
  (m.find? (fun q => q.1 == k)).map (fun q => q.2)

/-- The classification loop body: for each UniProt id in order, look up its
GO terms (`goterms_mapping[uniprotid]`, whose `KeyError` aborts the whole
loop via the surrounding `except KeyError: pass`, keeping the class
computed so far) and set the class to `MUT_CLASS_ID` if any term is in
`transfac_go_terms`. -/
def applyGoTerms (transfac : List String) (gtm : List (String × List String)) :
    List String → String → String
  | [], c => c
  | uid :: rest, c =>
    match lookup gtm uid with
    | none => c
    | some terms =>
      applyGoTerms transfac gtm rest
        (if terms.any (fun t => transfac.contains t) then MUT_CLASS_ID else c)

/-- The entity class computed for a mention: start from `PRO_CLASS_ID`;
`genes_mapping[gene[3]]` missing (`KeyError`) leaves it unchanged,
otherwise run the GO-term loop over the UniProt ids. -/
def computeClassId (transfac : List String)
    (gm gtm : List (String × List String)) (geneId : String) : String :=
  match lookup gm geneId with
  | none => PRO_CLASS_ID
  | some uids => applyGoTerms transfac gtm uids PRO_CLASS_ID

/-- The normalisation dict built for a mention: the full dict when
`genes_mapping[gene[3]]` exists, otherwise (on `KeyError`) only the
Entrez id. -/
def buildNormDict (gm : List (String × List String)) (geneId : String) :
    NormDict :=
  match lookup gm geneId with
  | none => { entrez := geneId, uniprot := none }
  | some uids => { entrez := geneId, uniprot := some uids }

/-- The entity appended for a selected mention: class from the GO-term
loop, offset `gene[0] - last_index`, the mention text, the fixed
confidence `0.5`, the normalisation dict, and empty normalised text. -/
def mkEntity (transfac : List String) (gm gtm : List (String × List String))
    (lastIndex : Int) (gene : Gene) : Entity :=
  { class_id := computeClassId transfac gm gtm gene.geneId
  , offset := gene.start - lastIndex
  , text := gene.text
  , confidence := 1/2
  , norm_dict := buildNormDict gm gene.geneId
  , normalized_text := [] }

/-- The guard `gene[2] in part.text and last_index <= gene[0] < part_index`. -/
def geneSelected (part : Part) (lastIndex partIndexEnd : Int) (gene : Gene) :
    Bool :=
  substrB gene.text part.text
    && decide (lastIndex ≤ gene.start) && decide (gene.start < partIndexEnd)

/-- The entities appended to one part by the inner `for gene in genes`
loop, in order. -/
def newEntities (transfac : List String) (genes : List Gene)
    (gm gtm : List (String × List String)) (lastIndex partIndexEnd : Int)
    (part : Part) : List Entity :=
  (genes.filter (geneSelected part lastIndex partIndexEnd)).map
    (mkEntity transfac gm gtm lastIndex)

/-- Appending a list of entities to the collection selected by the
`annotated` flag (`part.annotations` or `part.predicted_annotations`). -/
def appendColl (annotated : Bool) (part : Part) (es : List Entity) : Part :=
  if annotated then { part with annotations := part.annotations ++ es }
  else { part with predicted_annotations := part.predicted_annotations ++ es }

/-- Processing of one part: append the selected entities to the chosen
collection. -/
def tagPart (transfac : List String) (genes : List Gene)
    (gm gtm : List (String × List String)) (annotated : Bool)
    (lastIndex partIndexEnd : Int) (part : Part) : Part :=
  appendColl annotated part
    (newEntities transfac genes gm gtm lastIndex partIndexEnd part)

/-- The `for partid, part in doc.parts.items()` loop, carrying the running
`part_index` (which becomes `last_index` for the current part and is then
advanced by `part.get_size() + 1`). -/
def tagParts (transfac : List String) (genes : List Gene)
    (gm gtm : List (String × List String)) (annotated : Bool) :
    List (String × Part) → Int → List (String × Part)
  | [], _ => []
  | p :: rest, partIndex =>
    (p.1, tagPart transfac genes gm gtm annotated partIndex
        (partIndex + p.2.text.length + 1) p.2)
      :: tagParts transfac genes gm gtm annotated rest
        (partIndex + p.2.text.length + 1)

/-- Modelled from the spec: `nala`'s `Document.get_text` (not part of this
repository) exposes the document's concatenated text; one separator
character is assumed between consecutive parts (spec sections 3 and 4.1). -/
def Document.getText (doc : Document) : List Char :=
  List.intercalate [' '] (doc.parts.map (fun p => p.2.text))

/-- The marker substring `'Conclusion'` tested against the document text
to decide the retrieval mode. -/
def conclusionMarker : List Char := "Conclusion".toList

/-- The mention-retrieval branch: full text to GNormPlus when the marker
occurs in the document text, otherwise retrieval by document id. -/
def fetchGenes (svc : Services) (docid : String) (doc : Document) :
    List Gene :=
  if substrB conclusionMarker (Document.getText doc) then
    svc.getGenesForText docid (Document.getText doc)
  else
    svc.getGenesForPmid docid

/-- The `genes_mapping` of one document: empty unless `uniprot` is set, in
which case Swissprot is called on the uniquified Entrez ids. -/
def genesMappingOf (svc : Services) (uniprot : Bool) (genes : List Gene) :
    List (String × List String) :=
  if uniprot then svc.getUniprotidForEntrezGeneid (svc.uniquifyGenes genes)
  else []

/-- `TranscriptionFactorTagger.uniquify_proteins`: union of the lists of
UniProt ids into a duplicate-free list (the Python code accumulates into a
set). -/
def uniquifyProteins (proteinsObject : List (List String)) : List String :=
  proteinsObject.foldl
    (fun acc l =>
      l.foldl (fun a p => if a.contains p then a else a ++ [p]) acc) []

/-- The `goterms_mapping` of one document: GOTerms called on the
uniquified UniProt ids of `genes_mapping.values()` (always called, even
when that set is empty). -/
def gotermsMappingOf (svc : Services)
    (gm : List (String × List String)) : List (String × List String) :=
  svc.getGotermsForUniprotId (uniquifyProteins (gm.map (fun q => q.2)))

/-- The events emitted while processing one document: the retrieval call,
the Swissprot `with` block (only when `uniprot` is set) and the GOTerms
`with` block (always). -/
def documentEvents (svc : Services) (docid : String) (doc : Document)
    (uniprot : Bool) : List Event :=
  (if substrB conclusionMarker (Document.getText doc) then
      [Event.fetchByText docid]
    else [Event.fetchByPmid docid])
  ++ (if uniprot then
        [Event.acquire Res.swissprot,
         Event.normalizeCall (svc.uniquifyGenes (fetchGenes svc docid doc)),
         Event.release Res.swissprot]
      else [])
  ++ [Event.acquire Res.goterms,
      Event.resolveCall (uniquifyProteins
        ((genesMappingOf svc uniprot (fetchGenes svc docid doc)).map
          (fun q => q.2))),
      Event.release Res.goterms]

/-- Processing of one document by `tag`: fetch the mentions, build the two
mappings, and run the part loop starting at `part_index = 0`. -/
def tagDocument (tg : TranscriptionFactorTagger) (svc : Services)
    (docid : String) (doc : Document) (annotated uniprot : Bool) :
    Document × List Event :=
  (⟨tagParts tg.transfac_go_terms (fetchGenes svc docid doc)
      (genesMappingOf svc uniprot (fetchGenes svc docid doc))
      (gotermsMappingOf svc (genesMappingOf svc uniprot (fetchGenes svc docid doc)))
      annotated doc.parts 0⟩,
   documentEvents svc docid doc uniprot)

/-- The `for docid, doc in dataset.documents.items()` loop. -/
def tagDocs (tg : TranscriptionFactorTagger) (svc : Services)
    (annotated uniprot : Bool) :
    List (String × Document) → List (String × Document) × List Event
  | [] => ([], [])
  | d :: rest =>
    let r := tagDocument tg svc d.1 d.2 annotated uniprot
    let rr := tagDocs tg svc annotated uniprot rest
    ((d.1, r.1) :: rr.1, r.2 ++ rr.2)

/-- `TranscriptionFactorTagger.tag`: the GNormPlus connection is acquired
around the whole document loop and released at its exit. -/
def tag (tg : TranscriptionFactorTagger) (svc : Services)
    (dataset : Dataset) (annotated uniprot : Bool) : Dataset × List Event :=
  let r := tagDocs tg svc annotated uniprot dataset.documents
  (⟨r.1⟩, Event.acquire Res.gnormplus :: (r.2 ++ [Event.release Res.gnormplus]))

/-! ### Derived notions used to state the claims -/

/-- The part lengths `L[0..n-1]` of a part list. -/
def lens (ps : List (String × Part)) : List Nat :=
  ps.map (fun p => p.2.text.length)

/-- The cumulative start of part `i`, as accumulated by the loop:
`cumStart L 0 = 0` and `cumStart (l :: ls) (j+1) = l + 1 + cumStart ls j`
(closed form `sum L[0..i-1] + i`, see `cumStart_eq_sum`). -/
def cumStart : List Nat → Nat → Int
  | _, 0 => 0
  | [], j + 1 => (j : Int) + 1
  | l :: ls, j + 1 => (l : Int) + 1 + cumStart ls j

/-- The collection of a part selected by the `annotated` flag. -/
def collOf (annotated : Bool) (part : Part) : List Entity :=
  if annotated then part.annotations else part.predicted_annotations

/-- A part with no text and no entities, used as lookup default. -/
def dummyPart : Part := ⟨[], [], []⟩

/-- The `j`-th part of a document (`dummyPart` out of range). -/
def partAt (d : Document) (j : Nat) : Part :=
  match d.parts[j]? with
  | some p => p.2
  | none => dummyPart

/-- The `i`-th document of a dataset (empty document out of range). -/
def docAt (ds : Dataset) (i : Nat) : Document :=
  match ds.documents[i]? with
  | some d => d.2
  | none => ⟨[]⟩

/-- The entities appended to part `j` of a document by one run of
`tagDocument`. -/
def newEntitiesAt (tg : TranscriptionFactorTagger) (svc : Services)
    (docid : String) (doc : Document) (uniprot : Bool) (j : Nat) :
    List Entity :=
  match doc.parts[j]? with
  | none => []
  | some p =>
    newEntities tg.transfac_go_terms (fetchGenes svc docid doc)
      (genesMappingOf svc uniprot (fetchGenes svc docid doc))
      (gotermsMappingOf svc (genesMappingOf svc uniprot (fetchGenes svc docid doc)))
      (cumStart (lens doc.parts) j) (cumStart (lens doc.parts) (j + 1)) p.2

/-- Spec-side classification: the union of the GO terms of all secondary
ids (a missing `secondary → terms` entry contributing the empty set). -/
def termsUnion (gtm : List (String × List String)) (uids : List String) :
    List String :=
  uids.flatMap (fun u => (lookup gtm u).getD [])

/-- The classification actually realised by the code: scan the secondary
ids in order, stop at the first id missing from the `secondary → terms`
mapping, and report whether some scanned id has a term in the target set. -/
def classifiedSpecial (transfac : List String)
    (gtm : List (String × List String)) : List String → Bool
  | [] => false
  | u :: rest =>
    match lookup gtm u with
    | none => false
    | some terms =>
      terms.any (fun t => transfac.contains t)
        || classifiedSpecial transfac gtm rest

/-- Whether a global offset is covered by any part window when the part
loop starts at cumulative offset `0`. -/
def coveredB (L : List Nat) (gene : Gene) : Bool :=
  decide (0 ≤ gene.start) && decide (gene.start < cumStart L L.length)

/-- Event classifiers used for trace counting. -/
def isAcquireOf (r : Res) : Event → Bool
  | Event.acquire r' => r' == r
  | _ => false

def isReleaseOf (r : Res) : Event → Bool
  | Event.release r' => r' == r
  | _ => false

def isResolveCall : Event → Bool
  | Event.resolveCall _ => true
  | _ => false

def isNormalizeCall : Event → Bool
  | Event.normalizeCall _ => true
  | _ => false

/-! ### Structural lemmas about the embedding -/

theorem cumStart_eq_sum (L : List Nat) (i : Nat) :
    cumStart L i = ((L.take i).sum : Int) + i := by
  induction L generalizing i with
  | nil => cases i <;> simp [cumStart]
  | cons l ls ih =>
    cases i with
    | zero => simp [cumStart]
    | succ j =>
      show (l : Int) + 1 + cumStart ls j = _
      rw [ih, List.take_succ_cons, List.sum_cons]
      push_cast
      ring

theorem cumStart_nonneg (L : List Nat) (i : Nat) : 0 ≤ cumStart L i := by
  rw [cumStart_eq_sum]
  positivity

theorem cumStart_lt_succ (L : List Nat) (i : Nat) :
    cumStart L i < cumStart L (i + 1) := by
  have hs : (L.take i).sum ≤ (L.take (i + 1)).sum := by
    rw [List.take_succ, List.sum_append]
    omega
  rw [cumStart_eq_sum, cumStart_eq_sum]
  omega

theorem cumStart_le_of_le (L : List Nat) {i j : Nat} (h : i ≤ j) :
    cumStart L i ≤ cumStart L j := by
  induction j with
  | zero =>
    have h0 : i = 0 := Nat.le_zero.mp h
    simp [h0]
  | succ k ih =>
    rcases Nat.lt_or_ge i (k + 1) with h' | h'
    · exact le_trans (ih (Nat.lt_succ_iff.mp h'))
        (le_of_lt (cumStart_lt_succ L k))
    · have he : i = k + 1 := le_antisymm h h'
      simp [he]

theorem cumStart_succ_eq (L : List Nat) (j : Nat) (h : j < L.length) :
    cumStart L (j + 1) = cumStart L j + (L.getD j 0 : Int) + 1 := by
  induction L generalizing j with
  | nil => simp at h
  | cons l ls ih =>
    cases j with
    | zero =>
      show (l : Int) + 1 + cumStart ls 0 = 0 + ((l :: ls).getD 0 0 : Int) + 1
      simp [cumStart, List.getD_cons_zero]
    | succ k =>
      have h' : k < ls.length := by simpa using h
      show (l : Int) + 1 + cumStart ls (k + 1)
          = (l : Int) + 1 + cumStart ls k + ((l :: ls).getD (k + 1) 0 : Int) + 1
      rw [ih k h', List.getD_cons_succ]
      ring

theorem lens_cons (p : String × Part) (rest : List (String × Part)) :
    lens (p :: rest) = p.2.text.length :: lens rest := rfl

theorem tagParts_get (T : List String) (G : List Gene)
    (gm gtm : List (String × List String)) (a : Bool) :
    ∀ (ps : List (String × Part)) (s : Int) (j : Nat),
    (tagParts T G gm gtm a ps s)[j]? =
      ps[j]?.map (fun q =>
        (q.1, tagPart T G gm gtm a (s + cumStart (lens ps) j)
          (s + cumStart (lens ps) (j + 1)) q.2)) := by
  intro ps
  induction ps with
  | nil => intro s j; simp [tagParts]
  | cons p rest ih =>
    intro s j
    cases j with
    | zero =>
      have h1 : s + cumStart (lens (p :: rest)) 0 = s := by
        simp [cumStart]
      have h2 : s + cumStart (lens (p :: rest)) 1
          = s + (p.2.text.length : Int) + 1 := by
        rw [lens_cons]
        show s + ((p.2.text.length : Int) + 1 + cumStart (lens rest) 0) = _
        simp [cumStart]
        ring
      simp only [tagParts, List.getElem?_cons_zero, Option.map_some', h1, h2]
    | succ k =>
      have h1 : (s + (p.2.text.length : Int) + 1) + cumStart (lens rest) k
          = s + cumStart (lens (p :: rest)) (k + 1) := by
        rw [lens_cons]
        show _ = s + ((p.2.text.length : Int) + 1 + cumStart (lens rest) k)
        ring
      have h2 : (s + (p.2.text.length : Int) + 1) + cumStart (lens rest) (k + 1)
          = s + cumStart (lens (p :: rest)) (k + 1 + 1) := by
        rw [lens_cons]
        show _ = s + ((p.2.text.length : Int) + 1 + cumStart (lens rest) (k + 1))
        ring
      simp only [tagParts, List.getElem?_cons_succ, ih, h1, h2]

theorem tagParts_length (T : List String) (G : List Gene)
    (gm gtm : List (String × List String)) (a : Bool) :
    ∀ (ps : List (String × Part)) (s : Int),
    (tagParts T G gm gtm a ps s).length = ps.length := by
  intro ps
  induction ps with
  | nil => intro s; simp [tagParts]
  | cons p rest ih => intro s; simp [tagParts, ih]

theorem collOf_appendColl (a : Bool) (part : Part) (es : List Entity) :
    collOf a (appendColl a part es) = collOf a part ++ es := by
  cases a <;> rfl

theorem appendColl_text (a : Bool) (part : Part) (es : List Entity) :
    (appendColl a part es).text = part.text := by
  cases a <;> rfl

theorem appendColl_annotations_false (part : Part) (es : List Entity) :
    (appendColl false part es).annotations = part.annotations := rfl

theorem tagDocument_partAt (tg : TranscriptionFactorTagger) (svc : Services)
    (docid : String) (doc : Document) (a u : Bool) (j : Nat) :
    partAt (tagDocument tg svc docid doc a u).1 j =
      appendColl a (partAt doc j) (newEntitiesAt tg svc docid doc u j) := by
  have h := tagParts_get tg.transfac_go_terms (fetchGenes svc docid doc)
    (genesMappingOf svc u (fetchGenes svc docid doc))
    (gotermsMappingOf svc (genesMappingOf svc u (fetchGenes svc docid doc)))
    a doc.parts 0 j
  simp only [zero_add] at h
  cases hp : doc.parts[j]? with
  | none =>
    rw [hp] at h
    simp only [Option.map_none'] at h
    simp only [partAt, tagDocument, newEntitiesAt, h, hp]
    cases a <;> rfl
  | some q =>
    rw [hp] at h
    simp only [Option.map_some'] at h
    simp only [partAt, tagDocument, newEntitiesAt, h, hp, tagPart]

theorem mem_collOf_tagDocument {tg : TranscriptionFactorTagger}
    {svc : Services} {docid : String} {doc : Document} {a u : Bool}
    {j : Nat} {e : Entity} :
    e ∈ collOf a (partAt (tagDocument tg svc docid doc a u).1 j) ↔
      e ∈ collOf a (partAt doc j) ∨
        e ∈ newEntitiesAt tg svc docid doc u j := by
  rw [tagDocument_partAt, collOf_appendColl, List.mem_append]

theorem geneSelected_eq_true {part : Part} {lo hi : Int} {gene : Gene} :
    geneSelected part lo hi gene = true ↔
      substrB gene.text part.text = true ∧ lo ≤ gene.start ∧
        gene.start < hi := by
  simp [geneSelected, Bool.and_eq_true, decide_eq_true_iff, and_assoc]

theorem mem_newEntities {T : List String} {G : List Gene}
    {gm gtm : List (String × List String)} {lo hi : Int} {part : Part}
    {e : Entity} :
    e ∈ newEntities T G gm gtm lo hi part ↔
      ∃ gene, gene ∈ G ∧ geneSelected part lo hi gene = true ∧
        e = mkEntity T gm gtm lo gene := by
  simp only [newEntities, List.mem_map, List.mem_filter]
  constructor
  · rintro ⟨g, ⟨hg, hsel⟩, rfl⟩
    exact ⟨g, hg, hsel, rfl⟩
  · rintro ⟨g, hg, hsel, rfl⟩
    exact ⟨g, ⟨hg, hsel⟩, rfl⟩

theorem buildNormDict_entrez (gm : List (String × List String))
    (gid : String) : (buildNormDict gm gid).entrez = gid := by
  unfold buildNormDict
  cases lookup gm gid <;> rfl

theorem applyGoTerms_eq_special (T : List String)
    (gtm : List (String × List String)) :
    ∀ (uids : List String) (c : String),
    applyGoTerms T gtm uids c = MUT_CLASS_ID ↔
      (c = MUT_CLASS_ID ∨ classifiedSpecial T gtm uids = true) := by
  intro uids
  induction uids with
  | nil => intro c; simp [applyGoTerms, classifiedSpecial]
  | cons uid rest ih =>
    intro c
    simp only [applyGoTerms, classifiedSpecial]
    cases h : lookup gtm uid with
    | none => simp
    | some terms =>
      show applyGoTerms T gtm rest
          (if (terms.any fun t => T.contains t) = true then MUT_CLASS_ID
            else c) = MUT_CLASS_ID ↔
        c = MUT_CLASS_ID ∨
          ((terms.any fun t => T.contains t) || classifiedSpecial T gtm rest)
            = true
      cases hAny : terms.any (fun t => T.contains t) with
      | true => simp [ih]
      | false => simp [ih]

theorem computeClassId_eq_special (T : List String)
    (gm gtm : List (String × List String)) (gid : String) :
    computeClassId T gm gtm gid = MUT_CLASS_ID ↔
      ∃ uids, lookup gm gid = some uids ∧
        classifiedSpecial T gtm uids = true := by
  unfold computeClassId
  cases h : lookup gm gid with
  | none => simp [PRO_CLASS_ID, MUT_CLASS_ID]
  | some uids =>
    rw [applyGoTerms_eq_special]
    simp [PRO_CLASS_ID, MUT_CLASS_ID]

/-- Membership in the new entities of part `j`, unpacked down to the
originating gene mention and the part window. -/
theorem mem_newEntitiesAt {tg : TranscriptionFactorTagger} {svc : Services}
    {docid : String} {doc : Document} {u : Bool} {j : Nat} {e : Entity} :
    e ∈ newEntitiesAt tg svc docid doc u j ↔
      ∃ q, doc.parts[j]? = some q ∧
        ∃ gene, gene ∈ fetchGenes svc docid doc ∧
          geneSelected q.2 (cumStart (lens doc.parts) j)
            (cumStart (lens doc.parts) (j + 1)) gene = true ∧
          e = mkEntity tg.transfac_go_terms
            (genesMappingOf svc u (fetchGenes svc docid doc))
            (gotermsMappingOf svc
              (genesMappingOf svc u (fetchGenes svc docid doc)))
            (cumStart (lens doc.parts) j) gene := by
  unfold newEntitiesAt
  cases hp : doc.parts[j]? with
  | none => simp
  | some q => simp [mem_newEntities]

theorem partAt_of_some {doc : Document} {j : Nat} {q : String × Part}
    (hp : doc.parts[j]? = some q) : partAt doc j = q.2 := by
  simp [partAt, hp]

/-! ### Fixtures: concrete runs used by counterexamples and witnesses -/

/-- A tagger whose loaded target-term list is `["GO:TF"]`. -/
def fxTg : TranscriptionFactorTagger := ⟨["GO:TF"]⟩

/-- A document with the single part `"A"`. -/
def fxDoc : Document := ⟨[("s1", ⟨['A'], [], []⟩)]⟩

/-- A dataset holding only `fxDoc` under the key `"d1"`. -/
def fxDs : Dataset := ⟨[("d1", fxDoc)]⟩

/-- Services for the C1 scenario: the mention `"A"` at offset 0 with
Entrez id `"G1"`, normalised to the two UniProt ids `"P1"` and `"P2"`;
the GO-term service has no entry for `"P1"` and maps `"P2"` to the target
term `"GO:TF"`. -/
def fxSvc : Services :=
  { getGenesForText := fun _ _ => []
  , getGenesForPmid := fun _ => [⟨0, 1, ['A'], "G1"⟩]
  , uniquifyGenes := fun gs => gs.map (fun g => g.geneId)
  , getUniprotidForEntrezGeneid := fun _ => [("G1", ["P1", "P2"])]
  , getGotermsForUniprotId := fun _ => [("P2", ["GO:TF"])] }

/-- The entity that the C1 scenario stores. -/
def fxEnt : Entity :=
  { class_id := PRO_CLASS_ID, offset := 0, text := ['A'], confidence := 1/2
  , norm_dict := { entrez := "G1", uniprot := some ["P1", "P2"] }
  , normalized_text := [] }

/-- Services for the C3 scenario: a mention with text `"A"` at global
offset 1, i.e. exactly on the separator position after the one-character
part; no normalisation is used. -/
def fx2Svc : Services :=
  { getGenesForText := fun _ _ => []
  , getGenesForPmid := fun _ => [⟨1, 2, ['A'], "G1"⟩]
  , uniquifyGenes := fun gs => gs.map (fun g => g.geneId)
  , getUniprotidForEntrezGeneid := fun _ => []
  , getGotermsForUniprotId := fun _ => [] }

/-- The entity that the C3 scenario stores: local offset 1 in a part of
length 1. -/
def fx2Ent : Entity :=
  { class_id := PRO_CLASS_ID, offset := 1, text := ['A'], confidence := 1/2
  , norm_dict := { entrez := "G1", uniprot := none }
  , normalized_text := [] }

/-! ### Claim C1 -/

/-- C1, counterexample: in the `fxSvc` run the union of the GO terms over
all of the mention's secondary ids (`"P1"` missing from the mapping
contributing the empty set, `"P2"` contributing `"GO:TF"`) intersects the
target set, yet the stored entity keeps the default category, because the
`KeyError` raised for `"P1"` aborts the classification loop before `"P2"`
is checked. -/
theorem special_category_iff_union_counterexample :
    collOf false (partAt (docAt (tag fxTg fxSvc fxDs false true).1 0) 0)
        = [fxEnt] ∧
      fxEnt.class_id ≠ MUT_CLASS_ID ∧
      (termsUnion
          (gotermsMappingOf fxSvc
            (genesMappingOf fxSvc true (fetchGenes fxSvc "d1" fxDoc)))
          ((lookup (genesMappingOf fxSvc true (fetchGenes fxSvc "d1" fxDoc))
              fxEnt.norm_dict.entrez).getD [])).any
          (fun t => fxTg.transfac_go_terms.contains t) = true := by
  refine ⟨by rfl, by decide, by decide⟩

/-- C1, amended: a stored entity's category is the special one iff,
scanning the mention's secondary ids in order and stopping at the first id
missing from the secondary-to-terms mapping, some scanned id has a term in
the loaded target set (`classifiedSpecial`); a missing entry ends the scan
instead of contributing an empty set. -/
theorem special_category_iff_scanned_terms
    (tg : TranscriptionFactorTagger) (svc : Services) (docid : String)
    (doc : Document) (a u : Bool) (j : Nat) (e : Entity)
    (he : e ∈ collOf a (partAt (tagDocument tg svc docid doc a u).1 j)) :
    e ∈ collOf a (partAt doc j) ∨
      (e.class_id = MUT_CLASS_ID ↔
        ∃ uids,
          lookup (genesMappingOf svc u (fetchGenes svc docid doc))
              e.norm_dict.entrez = some uids ∧
          classifiedSpecial tg.transfac_go_terms
            (gotermsMappingOf svc
              (genesMappingOf svc u (fetchGenes svc docid doc))) uids
            = true) := by
  rw [mem_collOf_tagDocument] at he
  rcases he with he | he
  · exact Or.inl he
  right
  rcases mem_newEntitiesAt.mp he with ⟨q, hp, g, hg, hsel, rfl⟩
  simp only [mkEntity, buildNormDict_entrez]
  exact computeClassId_eq_special _ _ _ _

/-- C1, witness for the amended theorem, at the `fxSvc` run. -/
theorem special_category_iff_scanned_terms_witness :
    fxEnt ∈ collOf false (partAt fxDoc 0) ∨
      (fxEnt.class_id = MUT_CLASS_ID ↔
        ∃ uids,
          lookup (genesMappingOf fxSvc true (fetchGenes fxSvc "d1" fxDoc))
              fxEnt.norm_dict.entrez = some uids ∧
          classifiedSpecial fxTg.transfac_go_terms
            (gotermsMappingOf fxSvc
              (genesMappingOf fxSvc true (fetchGenes fxSvc "d1" fxDoc)))
            uids = true) :=
  special_category_iff_scanned_terms fxTg fxSvc "d1" fxDoc false true 0 fxEnt
    (by exact List.mem_singleton_self fxEnt)

/-! ### Claim C3 -/

/-- C3, counterexample: the `fx2Svc` run stores an entity whose part-local
offset equals the owning part's length (the mention starts on the
separator position following the part), so a stored offset is not always
strictly less than the part length. -/
theorem stored_offset_bounds_counterexample :
    collOf false (partAt (docAt (tag fxTg fx2Svc fxDs false false).1 0) 0)
        = [fx2Ent] ∧
      fx2Ent.offset = 1 ∧
      ((partAt (docAt fxDs 0) 0).text.length : Int) = 1 := by
  refine ⟨by rfl, by decide, by decide⟩

/-- C3, amended: every entity stored by the tagging routine has a
part-local offset that is non-negative and at most the owning part's
length (the offset can equal the length exactly when the mention starts on
the separator position following the part). -/
theorem stored_offset_bounds
    (tg : TranscriptionFactorTagger) (svc : Services) (docid : String)
    (doc : Document) (a u : Bool) (j : Nat) (e : Entity)
    (he : e ∈ collOf a (partAt (tagDocument tg svc docid doc a u).1 j)) :
    e ∈ collOf a (partAt doc j) ∨
      (0 ≤ e.offset ∧ e.offset ≤ ((partAt doc j).text.length : Int)) := by
  rw [mem_collOf_tagDocument] at he
  rcases he with he | he
  · exact Or.inl he
  right
  rcases mem_newEntitiesAt.mp he with ⟨q, hp, g, hg, hsel, rfl⟩
  rcases geneSelected_eq_true.mp hsel with ⟨hsub, hlo, hhi⟩
  have hq : partAt doc j = q.2 := partAt_of_some hp
  have hlen : j < doc.parts.length := by
    rw [List.getElem?_eq_some] at hp
    exact hp.1
  have hlenL : j < (lens doc.parts).length := by simpa [lens] using hlen
  have hcum := cumStart_succ_eq (lens doc.parts) j hlenL
  have hgd : (lens doc.parts).getD j 0 = q.2.text.length := by
    rw [List.getD_eq_getElem?_getD]
    unfold lens
    rw [List.getElem?_map, hp]
    rfl
  rw [hgd] at hcum
  simp only [mkEntity, hq]
  constructor
  · omega
  · omega

/-- C3, witness for the amended theorem, at the `fx2Svc` run. -/
theorem stored_offset_bounds_witness :
    fx2Ent ∈ collOf false (partAt fxDoc 0) ∨
      (0 ≤ fx2Ent.offset ∧
        fx2Ent.offset ≤ ((partAt fxDoc 0).text.length : Int)) :=
  stored_offset_bounds fxTg fx2Svc "d1" fxDoc false false 0 fx2Ent
    (by exact List.mem_singleton_self fx2Ent)

/-! ### Claim C6 -/

/-- C6: every entity stored by the tagging routine carries its mention's
primary (Entrez) id; when the primary-to-secondary mapping has no entry
for that id the record carries no secondary ids (and nothing fails), and
when an entry exists the record's secondary ids are exactly the full
mapped value list. -/
theorem normalisation_record_fields
    (tg : TranscriptionFactorTagger) (svc : Services) (docid : String)
    (doc : Document) (a u : Bool) (j : Nat) (e : Entity)
    (he : e ∈ collOf a (partAt (tagDocument tg svc docid doc a u).1 j)) :
    e ∈ collOf a (partAt doc j) ∨
      ∃ gene, gene ∈ fetchGenes svc docid doc ∧
        e.norm_dict.entrez = gene.geneId ∧
        ((lookup (genesMappingOf svc u (fetchGenes svc docid doc))
              gene.geneId = none ∧ e.norm_dict.uniprot = none) ∨
          ∃ uids,
            lookup (genesMappingOf svc u (fetchGenes svc docid doc))
                gene.geneId = some uids ∧
              e.norm_dict.uniprot = some uids) := by
  rw [mem_collOf_tagDocument] at he
  rcases he with he | he
  · exact Or.inl he
  right
  rcases mem_newEntitiesAt.mp he with ⟨q, hp, g, hg, hsel, rfl⟩
  refine ⟨g, hg, by simp [mkEntity, buildNormDict_entrez], ?_⟩
  simp only [mkEntity]
  unfold buildNormDict
  cases hl : lookup (genesMappingOf svc u (fetchGenes svc docid doc))
      g.geneId with
  | none => exact Or.inl ⟨rfl, rfl⟩
  | some uids => exact Or.inr ⟨uids, rfl, rfl⟩

/-- C6, witness at the `fxSvc` run (where the mapping has an entry for
`"G1"` with the two secondary ids). -/
theorem normalisation_record_fields_witness :
    fxEnt ∈ collOf false (partAt fxDoc 0) ∨
      ∃ gene, gene ∈ fetchGenes fxSvc "d1" fxDoc ∧
        fxEnt.norm_dict.entrez = gene.geneId ∧
        ((lookup (genesMappingOf fxSvc true (fetchGenes fxSvc "d1" fxDoc))
              gene.geneId = none ∧ fxEnt.norm_dict.uniprot = none) ∨
          ∃ uids,
            lookup (genesMappingOf fxSvc true (fetchGenes fxSvc "d1" fxDoc))
                gene.geneId = some uids ∧
              fxEnt.norm_dict.uniprot = some uids) :=
  normalisation_record_fields fxTg fxSvc "d1" fxDoc false true 0 fxEnt
    (by exact List.mem_singleton_self fxEnt)

/-! ### Claim C9 -/

/-- C9: every entity stored by the tagging routine has confidence exactly
the fixed default 1/2 and an empty normalised text. -/
theorem fixed_confidence_and_empty_normalized_text
    (tg : TranscriptionFactorTagger) (svc : Services) (docid : String)
    (doc : Document) (a u : Bool) (j : Nat) (e : Entity)
    (he : e ∈ collOf a (partAt (tagDocument tg svc docid doc a u).1 j)) :
    e ∈ collOf a (partAt doc j) ∨
      (e.confidence = 1/2 ∧ e.normalized_text = []) := by
  rw [mem_collOf_tagDocument] at he
  rcases he with he | he
  · exact Or.inl he
  right
  rcases mem_newEntitiesAt.mp he with ⟨q, hp, g, hg, hsel, rfl⟩
  exact ⟨rfl, rfl⟩

/-- C9, witness at the `fx2Svc` run. -/
theorem fixed_confidence_and_empty_normalized_text_witness :
    fx2Ent ∈ collOf false (partAt fxDoc 0) ∨
      (fx2Ent.confidence = 1/2 ∧ fx2Ent.normalized_text = []) :=
  fixed_confidence_and_empty_normalized_text fxTg fx2Svc "d1" fxDoc false
    false 0 fx2Ent (by exact List.mem_singleton_self fx2Ent)

/-! ### Claim C8 -/

/-- C8: a mention inside a part's offset window is stored only if its text
also occurs as a substring of that part's text: an entity whose text does
not occur in the part is never newly stored (first clause; existing
entities are merely kept, second clause), and a mention in the window
whose text does occur is always stored (third clause). -/
theorem window_mention_needs_substring
    (tg : TranscriptionFactorTagger) (svc : Services) (docid : String)
    (doc : Document) (a u : Bool) (j : Nat) :
    (∀ e, e ∈ collOf a (partAt (tagDocument tg svc docid doc a u).1 j) →
      substrB e.text (partAt doc j).text = false →
      e ∈ collOf a (partAt doc j)) ∧
    (∀ e, e ∈ collOf a (partAt doc j) →
      e ∈ collOf a (partAt (tagDocument tg svc docid doc a u).1 j)) ∧
    (∀ gene q, doc.parts[j]? = some q →
      gene ∈ fetchGenes svc docid doc →
      substrB gene.text q.2.text = true →
      cumStart (lens doc.parts) j ≤ gene.start →
      gene.start < cumStart (lens doc.parts) (j + 1) →
      mkEntity tg.transfac_go_terms
          (genesMappingOf svc u (fetchGenes svc docid doc))
          (gotermsMappingOf svc
            (genesMappingOf svc u (fetchGenes svc docid doc)))
          (cumStart (lens doc.parts) j) gene
        ∈ collOf a (partAt (tagDocument tg svc docid doc a u).1 j)) := by
  refine ⟨?_, ?_, ?_⟩
  · intro e he hsub
    rw [mem_collOf_tagDocument] at he
    rcases he with he | he
    · exact he
    rcases mem_newEntitiesAt.mp he with ⟨q, hp, g, hg, hsel, rfl⟩
    rcases geneSelected_eq_true.mp hsel with ⟨hs, _, _⟩
    rw [partAt_of_some hp] at hsub
    rw [show (mkEntity tg.transfac_go_terms
        (genesMappingOf svc u (fetchGenes svc docid doc))
        (gotermsMappingOf svc
          (genesMappingOf svc u (fetchGenes svc docid doc)))
        (cumStart (lens doc.parts) j) g).text = g.text from rfl] at hsub
    rw [hs] at hsub
    cases hsub
  · intro e he
    rw [mem_collOf_tagDocument]
    exact Or.inl he
  · intro gene q hp hg hsub hlo hhi
    rw [mem_collOf_tagDocument]
    right
    exact mem_newEntitiesAt.mpr
      ⟨q, hp, gene, hg, geneSelected_eq_true.mpr ⟨hsub, hlo, hhi⟩, rfl⟩

/-- C8, witness: in the `fxSvc` run the in-window mention with matching
text is stored (third clause of the theorem applied concretely). -/
theorem window_mention_needs_substring_witness :
    mkEntity fxTg.transfac_go_terms
        (genesMappingOf fxSvc true (fetchGenes fxSvc "d1" fxDoc))
        (gotermsMappingOf fxSvc
          (genesMappingOf fxSvc true (fetchGenes fxSvc "d1" fxDoc)))
        (cumStart (lens fxDoc.parts) 0) ⟨0, 1, ['A'], "G1"⟩
      ∈ collOf false (partAt (tagDocument fxTg fxSvc "d1" fxDoc false true).1 0) :=
  (window_mention_needs_substring fxTg fxSvc "d1" fxDoc false true 0).2.2
    ⟨0, 1, ['A'], "G1"⟩ ("s1", ⟨['A'], [], []⟩) (by rfl) (by decide)
    (by decide) (by decide) (by decide)

/-! ### Claim C2 -/

/-- Removing genes that fail a predicate implied by the selection guard
does not change the entities appended to a part. -/
theorem newEntities_filter (T : List String)
    (gm gtm : List (String × List String)) (lo hi : Int) (part : Part)
    (G : List Gene) (p : Gene → Bool)
    (himp : ∀ g ∈ G, geneSelected part lo hi g = true → p g = true) :
    newEntities T (G.filter p) gm gtm lo hi part
      = newEntities T G gm gtm lo hi part := by
  unfold newEntities
  rw [List.filter_filter]
  congr 1
  apply List.filter_congr
  intro g hg
  cases hs : geneSelected part lo hi g with
  | false => simp [hs]
  | true => simp [hs, himp g hg hs]

/-- The part loop ignores genes whose global offset lies outside the union
of the part windows: filtering them away first gives the same result. -/
theorem tagParts_filter_covered (T : List String)
    (gm gtm : List (String × List String)) (a : Bool) :
    ∀ (ps : List (String × Part)) (G : List Gene) (s : Int),
    tagParts T (G.filter (fun g =>
          decide (s ≤ g.start) &&
            decide (g.start < s + cumStart (lens ps) ps.length)))
        gm gtm a ps s
      = tagParts T G gm gtm a ps s := by
  intro ps
  induction ps with
  | nil => intro G s; rfl
  | cons p rest ih =>
    intro G s
    have hcf : cumStart (lens (p :: rest)) (p :: rest).length
        = (p.2.text.length : Int) + 1 + cumStart (lens rest) rest.length := by
      rw [lens_cons]
      rfl
    have hnn := cumStart_nonneg (lens rest) rest.length
    simp only [tagParts]
    congr 1
    · unfold tagPart
      congr 1
      congr 1
      apply newEntities_filter
      intro g hg hs
      rcases geneSelected_eq_true.mp hs with ⟨_, h1, h2⟩
      rw [Bool.and_eq_true, decide_eq_true_eq, decide_eq_true_eq, hcf]
      constructor
      · exact h1
      · omega
    · have ih1 := ih G (s + (p.2.text.length : Int) + 1)
      have ih2 := ih (G.filter (fun g =>
          decide (s ≤ g.start) &&
            decide (g.start < s + cumStart (lens (p :: rest))
              (p :: rest).length))) (s + (p.2.text.length : Int) + 1)
      rw [← ih2, ← ih1]
      congr 1
      rw [List.filter_filter]
      apply List.filter_congr
      intro g hg
      rw [Bool.eq_iff_iff]
      simp only [Bool.and_eq_true, decide_eq_true_eq]
      rw [hcf]
      constructor
      · rintro ⟨h, _⟩
        exact h
      · rintro ⟨h1, h2⟩
        refine ⟨⟨h1, h2⟩, by omega, by omega⟩

/-- C2: part windows as computed by the loop.  First clause: the window
formula `cumulative_start(i) = sum L[0..i-1] + i`.  Second clause: every
newly stored entity comes from a mention whose global offset lies in the
(left-closed) window of its part, with local offset `g - cumulative_start`.
Third clause: the windows are pairwise disjoint, so an offset on a part's
start boundary belongs to that part's window and to no other.  Fourth
clause: mentions outside every window contribute nothing (no entity, no
failure): filtering them away first leaves the part loop's output
unchanged. -/
theorem offset_alignment_spec
    (tg : TranscriptionFactorTagger) (svc : Services) (docid : String)
    (doc : Document) (a u : Bool) :
    (∀ i : Nat, cumStart (lens doc.parts) i
        = (((lens doc.parts).take i).sum : Int) + i) ∧
    (∀ (j : Nat) (e : Entity),
      e ∈ collOf a (partAt (tagDocument tg svc docid doc a u).1 j) →
      e ∈ collOf a (partAt doc j) ∨
        ∃ gene, gene ∈ fetchGenes svc docid doc ∧
          cumStart (lens doc.parts) j ≤ gene.start ∧
          gene.start < cumStart (lens doc.parts) (j + 1) ∧
          e.offset = gene.start - cumStart (lens doc.parts) j) ∧
    (∀ j k : Nat, j < doc.parts.length → k < doc.parts.length → k ≠ j →
      cumStart (lens doc.parts) j < cumStart (lens doc.parts) (j + 1) ∧
      ¬(cumStart (lens doc.parts) k ≤ cumStart (lens doc.parts) j ∧
        cumStart (lens doc.parts) j < cumStart (lens doc.parts) (k + 1))) ∧
    tagParts tg.transfac_go_terms
        ((fetchGenes svc docid doc).filter (coveredB (lens doc.parts)))
        (genesMappingOf svc u (fetchGenes svc docid doc))
        (gotermsMappingOf svc
          (genesMappingOf svc u (fetchGenes svc docid doc)))
        a doc.parts 0
      = tagParts tg.transfac_go_terms (fetchGenes svc docid doc)
        (genesMappingOf svc u (fetchGenes svc docid doc))
        (gotermsMappingOf svc
          (genesMappingOf svc u (fetchGenes svc docid doc)))
        a doc.parts 0 := by
  refine ⟨fun i => cumStart_eq_sum _ i, ?_, ?_, ?_⟩
  · intro j e he
    rw [mem_collOf_tagDocument] at he
    rcases he with he | he
    · exact Or.inl he
    right
    rcases mem_newEntitiesAt.mp he with ⟨q, hp, g, hg, hsel, rfl⟩
    rcases geneSelected_eq_true.mp hsel with ⟨_, hlo, hhi⟩
    exact ⟨g, hg, hlo, hhi, rfl⟩
  · intro j k _ _ hkj
    refine ⟨cumStart_lt_succ _ j, ?_⟩
    rcases Nat.lt_or_gt_of_ne hkj with hk | hk
    · rintro ⟨_, h2⟩
      have hle := cumStart_le_of_le (lens doc.parts)
        (show k + 1 ≤ j from hk)
      omega
    · rintro ⟨h1, _⟩
      have hle := cumStart_le_of_le (lens doc.parts)
        (show j + 1 ≤ k from hk)
      have hlt := cumStart_lt_succ (lens doc.parts) j
      omega
  · have h0 := tagParts_filter_covered tg.transfac_go_terms
      (genesMappingOf svc u (fetchGenes svc docid doc))
      (gotermsMappingOf svc
        (genesMappingOf svc u (fetchGenes svc docid doc)))
      a doc.parts (fetchGenes svc docid doc) 0
    have hfil : (fetchGenes svc docid doc).filter (fun g =>
        decide ((0 : Int) ≤ g.start) &&
          decide (g.start < 0 + cumStart (lens doc.parts) doc.parts.length))
        = (fetchGenes svc docid doc).filter (coveredB (lens doc.parts)) := by
      apply List.filter_congr
      intro g hg
      simp [coveredB, lens, List.length_map]
    rw [hfil] at h0
    exact h0

/-- The spec's own alignment scenario: a part `"AAAA"` followed by a part
`"Conclusion BBBB"`, with one mention at global offset 11. -/
def fx3Doc : Document :=
  ⟨[("s1", ⟨"AAAA".toList, [], []⟩),
    ("s2", ⟨"Conclusion BBBB".toList, [], []⟩)]⟩

/-- Services for the scenario: full-text retrieval returns the mention
`"B"` at offset 11, normalised to `"P1"`, which carries the target term. -/
def fx3Svc : Services :=
  { getGenesForText := fun _ _ => [⟨11, 12, ['B'], "G1"⟩]
  , getGenesForPmid := fun _ => []
  , uniquifyGenes := fun gs => gs.map (fun g => g.geneId)
  , getUniprotidForEntrezGeneid := fun _ => [("G1", ["P1"])]
  , getGotermsForUniprotId := fun _ => [("P1", ["GO:TF"])] }

/-- The entity the scenario stores: special category, local offset
`11 - (4 + 1) = 6` in part 1. -/
def fx3Ent : Entity :=
  { class_id := MUT_CLASS_ID, offset := 6, text := ['B'], confidence := 1/2
  , norm_dict := { entrez := "G1", uniprot := some ["P1"] }
  , normalized_text := [] }

/-- C2, witness: the scenario entity is explained by the mention at global
offset 11 sitting in part 1's window `[5, 21)` with local offset 6. -/
theorem offset_alignment_spec_witness :
    fx3Ent ∈ collOf false (partAt fx3Doc 1) ∨
      ∃ gene, gene ∈ fetchGenes fx3Svc "d1" fx3Doc ∧
        cumStart (lens fx3Doc.parts) 1 ≤ gene.start ∧
        gene.start < cumStart (lens fx3Doc.parts) (1 + 1) ∧
        fx3Ent.offset = gene.start - cumStart (lens fx3Doc.parts) 1 :=
  (offset_alignment_spec fxTg fx3Svc "d1" fx3Doc false true).2.1 1 fx3Ent
    (by exact List.mem_singleton_self fx3Ent)

/-! ### Claim C7 -/

theorem appendColl_predicted_false (part : Part) (es : List Entity) :
    (appendColl false part es).predicted_annotations
      = part.predicted_annotations ++ es := rfl

theorem tagParts_map_text (T : List String) (G : List Gene)
    (gm gtm : List (String × List String)) (a : Bool) :
    ∀ (ps : List (String × Part)) (s : Int),
    (tagParts T G gm gtm a ps s).map (fun q => q.2.text)
      = ps.map (fun q => q.2.text) := by
  intro ps
  induction ps with
  | nil => intro s; rfl
  | cons p rest ih =>
    intro s
    simp [tagParts, tagPart, appendColl_text, ih]

theorem tagPart_text (T : List String) (G : List Gene)
    (gm gtm : List (String × List String)) (a : Bool) (lo hi : Int)
    (part : Part) :
    (tagPart T G gm gtm a lo hi part).text = part.text :=
  appendColl_text a part _

theorem tagParts_lens (T : List String) (G : List Gene)
    (gm gtm : List (String × List String)) (a : Bool)
    (ps : List (String × Part)) (s : Int) :
    lens (tagParts T G gm gtm a ps s) = lens ps := by
  induction ps generalizing s with
  | nil => rfl
  | cons p rest ih =>
    simp only [tagParts, lens_cons, ih]
    simp [tagPart_text]

theorem tagDocument_getText (tg : TranscriptionFactorTagger)
    (svc : Services) (docid : String) (doc : Document) (a u : Bool) :
    Document.getText (tagDocument tg svc docid doc a u).1
      = Document.getText doc := by
  unfold Document.getText
  congr 1
  exact tagParts_map_text _ _ _ _ _ doc.parts 0

theorem fetchGenes_tagDocument (tg : TranscriptionFactorTagger)
    (svc : Services) (docid : String) (doc : Document) (a u : Bool) :
    fetchGenes svc docid (tagDocument tg svc docid doc a u).1
      = fetchGenes svc docid doc := by
  unfold fetchGenes
  rw [tagDocument_getText]

theorem newEntities_text_congr (T : List String) (G : List Gene)
    (gm gtm : List (String × List String)) (lo hi : Int)
    {part part' : Part} (h : part.text = part'.text) :
    newEntities T G gm gtm lo hi part
      = newEntities T G gm gtm lo hi part' := by
  unfold newEntities
  congr 1
  apply List.filter_congr
  intro g hg
  unfold geneSelected
  rw [h]

/-- A second run over an already tagged document computes the same new
entities for every part: the mention fetch, the two mappings and the part
windows depend only on the part texts, which tagging does not change. -/
theorem tagDocument_newEntitiesAt (tg : TranscriptionFactorTagger)
    (svc : Services) (docid : String) (doc : Document) (a u : Bool)
    (j : Nat) :
    newEntitiesAt tg svc docid (tagDocument tg svc docid doc a u).1 u j
      = newEntitiesAt tg svc docid doc u j := by
  have hg := fetchGenes_tagDocument tg svc docid doc a u
  have hl : lens ((tagDocument tg svc docid doc a u).1).parts
      = lens doc.parts :=
    tagParts_lens _ _ _ _ _ doc.parts 0
  have hget := tagParts_get tg.transfac_go_terms (fetchGenes svc docid doc)
    (genesMappingOf svc u (fetchGenes svc docid doc))
    (gotermsMappingOf svc (genesMappingOf svc u (fetchGenes svc docid doc)))
    a doc.parts 0 j
  simp only [zero_add] at hget
  cases hp : doc.parts[j]? with
  | none =>
    rw [hp, Option.map_none'] at hget
    have hscr : ((tagDocument tg svc docid doc a u).1).parts[j]? = none :=
      hget
    simp only [newEntitiesAt, hscr, hp]
  | some q =>
    rw [hp, Option.map_some'] at hget
    have hscr : ((tagDocument tg svc docid doc a u).1).parts[j]?
        = some (q.1, tagPart tg.transfac_go_terms
            (fetchGenes svc docid doc)
            (genesMappingOf svc u (fetchGenes svc docid doc))
            (gotermsMappingOf svc
              (genesMappingOf svc u (fetchGenes svc docid doc)))
            a (cumStart (lens doc.parts) j)
            (cumStart (lens doc.parts) (j + 1)) q.2) := hget
    simp only [newEntitiesAt, hscr, hp, hg, hl]
    exact newEntities_text_congr _ _ _ _ _ _
      (appendColl_text a q.2 _)

theorem tagDocs_get (tg : TranscriptionFactorTagger) (svc : Services)
    (a u : Bool) : ∀ (docs : List (String × Document)) (i : Nat),
    ((tagDocs tg svc a u docs).1)[i]?
      = docs[i]?.map
          (fun d => (d.1, (tagDocument tg svc d.1 d.2 a u).1)) := by
  intro docs
  induction docs with
  | nil => intro i; simp [tagDocs]
  | cons d rest ih =>
    intro i
    cases i with
    | zero => simp [tagDocs]
    | succ k => simp only [tagDocs, List.getElem?_cons_succ, ih]

theorem tag_docAt (tg : TranscriptionFactorTagger) (svc : Services)
    (a u : Bool) (ds : Dataset) (i : Nat) :
    docAt (tag tg svc ds a u).1 i
      = match ds.documents[i]? with
        | none => ⟨[]⟩
        | some d => (tagDocument tg svc d.1 d.2 a u).1 := by
  have h : ((tag tg svc ds a u).1).documents[i]?
      = ds.documents[i]?.map
          (fun d => (d.1, (tagDocument tg svc d.1 d.2 a u).1)) :=
    tagDocs_get tg svc a u ds.documents i
  unfold docAt
  rw [h]
  cases ds.documents[i]? <;> rfl

/-- C7: running `tag` twice in predicted mode appends the same new
entities twice to every part's predicted collection and never touches the
gold collections: after the second run each part holds its original
predicted entities followed by two copies of the entities a single run
produces. -/
theorem double_run_duplicates_predictions
    (tg : TranscriptionFactorTagger) (svc : Services) (ds : Dataset)
    (u : Bool) (i j : Nat) :
    ∃ E : List Entity,
      (partAt (docAt (tag tg svc (tag tg svc ds false u).1 false u).1 i)
          j).annotations
        = (partAt (docAt ds i) j).annotations ∧
      (partAt (docAt (tag tg svc ds false u).1 i) j).predicted_annotations
        = (partAt (docAt ds i) j).predicted_annotations ++ E ∧
      (partAt (docAt (tag tg svc (tag tg svc ds false u).1 false u).1 i)
          j).predicted_annotations
        = (partAt (docAt ds i) j).predicted_annotations ++ E ++ E := by
  have h1 := tag_docAt tg svc false u ds i
  have h2 := tag_docAt tg svc false u (tag tg svc ds false u).1 i
  have hinner : ((tag tg svc ds false u).1).documents[i]?
      = ds.documents[i]?.map
          (fun d => (d.1, (tagDocument tg svc d.1 d.2 false u).1)) :=
    tagDocs_get tg svc false u ds.documents i
  rw [hinner] at h2
  cases hd : ds.documents[i]? with
  | none =>
    rw [hd] at h1 h2
    simp only [Option.map_none'] at h1 h2
    have hds : docAt ds i = ⟨[]⟩ := by simp [docAt, hd]
    refine ⟨[], ?_, ?_, ?_⟩ <;> simp [h1, h2, hds, partAt, dummyPart]
  | some d =>
    rw [hd] at h1 h2
    simp only [Option.map_some'] at h1 h2
    have hds : docAt ds i = d.2 := by simp [docAt, hd]
    refine ⟨newEntitiesAt tg svc d.1 d.2 u j, ?_, ?_, ?_⟩
    · rw [h2, hds, tagDocument_partAt, appendColl_annotations_false,
        tagDocument_partAt, appendColl_annotations_false]
    · rw [h1, hds, tagDocument_partAt, appendColl_predicted_false]
    · rw [h2, hds, tagDocument_partAt, appendColl_predicted_false,
        tagDocument_partAt, appendColl_predicted_false,
        tagDocument_newEntitiesAt]

/-! ### Trace lemmas for the resource-scoping and retrieval-mode claims -/

theorem tag_trace_eq (tg : TranscriptionFactorTagger) (svc : Services)
    (ds : Dataset) (a u : Bool) :
    (tag tg svc ds a u).2
      = Event.acquire Res.gnormplus
        :: ((tagDocs tg svc a u ds.documents).2
          ++ [Event.release Res.gnormplus]) := rfl

theorem dE_countP_acq_gnorm (svc : Services) (docid : String)
    (doc : Document) (u : Bool) :
    (documentEvents svc docid doc u).countP (isAcquireOf Res.gnormplus)
      = 0 := by
  unfold documentEvents
  cases substrB conclusionMarker (Document.getText doc) <;> cases u <;>
    simp [List.countP_append, List.countP_cons, isAcquireOf]

theorem dE_countP_rel_gnorm (svc : Services) (docid : String)
    (doc : Document) (u : Bool) :
    (documentEvents svc docid doc u).countP (isReleaseOf Res.gnormplus)
      = 0 := by
  unfold documentEvents
  cases substrB conclusionMarker (Document.getText doc) <;> cases u <;>
    simp [List.countP_append, List.countP_cons, isReleaseOf]

theorem dE_countP_acq_go (svc : Services) (docid : String)
    (doc : Document) (u : Bool) :
    (documentEvents svc docid doc u).countP (isAcquireOf Res.goterms)
      = 1 := by
  unfold documentEvents
  cases substrB conclusionMarker (Document.getText doc) <;> cases u <;>
    simp [List.countP_append, List.countP_cons, isAcquireOf]

theorem dE_countP_rel_go (svc : Services) (docid : String)
    (doc : Document) (u : Bool) :
    (documentEvents svc docid doc u).countP (isReleaseOf Res.goterms)
      = 1 := by
  unfold documentEvents
  cases substrB conclusionMarker (Document.getText doc) <;> cases u <;>
    simp [List.countP_append, List.countP_cons, isReleaseOf]

theorem dE_countP_acq_sw (svc : Services) (docid : String)
    (doc : Document) (u : Bool) :
    (documentEvents svc docid doc u).countP (isAcquireOf Res.swissprot)
      = if u then 1 else 0 := by
  unfold documentEvents
  cases substrB conclusionMarker (Document.getText doc) <;> cases u <;>
    simp [List.countP_append, List.countP_cons, isAcquireOf]

theorem dE_countP_rel_sw (svc : Services) (docid : String)
    (doc : Document) (u : Bool) :
    (documentEvents svc docid doc u).countP (isReleaseOf Res.swissprot)
      = if u then 1 else 0 := by
  unfold documentEvents
  cases substrB conclusionMarker (Document.getText doc) <;> cases u <;>
    simp [List.countP_append, List.countP_cons, isReleaseOf]

theorem dE_countP_norm (svc : Services) (docid : String)
    (doc : Document) (u : Bool) :
    (documentEvents svc docid doc u).countP isNormalizeCall
      = if u then 1 else 0 := by
  unfold documentEvents
  cases substrB conclusionMarker (Document.getText doc) <;> cases u <;>
    simp [List.countP_append, List.countP_cons, isNormalizeCall]

theorem dE_countP_resolve (svc : Services) (docid : String)
    (doc : Document) (u : Bool) :
    (documentEvents svc docid doc u).countP isResolveCall = 1 := by
  unfold documentEvents
  cases substrB conclusionMarker (Document.getText doc) <;> cases u <;>
    simp [List.countP_append, List.countP_cons, isResolveCall]

theorem tagDocs_trace_countP (tg : TranscriptionFactorTagger)
    (svc : Services) (a u : Bool) (p : Event → Bool) (k : Nat)
    (h : ∀ docid doc, (documentEvents svc docid doc u).countP p = k) :
    ∀ docs : List (String × Document),
    ((tagDocs tg svc a u docs).2).countP p = k * docs.length := by
  intro docs
  induction docs with
  | nil => simp [tagDocs]
  | cons d rest ih =>
    have hd : ((tagDocument tg svc d.1 d.2 a u).2).countP p = k :=
      h d.1 d.2
    simp only [tagDocs, List.countP_append, hd, ih, List.length_cons]
    ring

/-! ### Claim C4 -/

/-- A dataset with two documents, used to exhibit per-document
acquisition of the cross-reference connections. -/
def fxDs2 : Dataset := ⟨[("d1", fxDoc), ("d2", fxDoc)]⟩

/-- C4, counterexample: on a two-document dataset the ontology-resolver
and identifier-normalizer connections are each acquired twice — once per
document — not exactly once per dataset-level pass. -/
theorem connection_scoping_counterexample :
    ((tag fxTg fxSvc fxDs2 false true).2).countP (isAcquireOf Res.goterms)
        = 2 ∧
      ((tag fxTg fxSvc fxDs2 false true).2).countP
          (isAcquireOf Res.swissprot) = 2 ∧
      fxDs2.documents.length = 2 := by
  refine ⟨by decide, by decide, by decide⟩

/-- C4 (amended): the gene-recognizer connection is acquired exactly once
per dataset pass, opening the trace, and released as the very last event;
the identifier-normalizer and ontology-resolver connections are acquired
and released once per document (the normalizer only when normalization is
enabled), not once per pass. -/
theorem connection_scoping
    (tg : TranscriptionFactorTagger) (svc : Services) (ds : Dataset)
    (a u : Bool) :
    ((tag tg svc ds a u).2).countP (isAcquireOf Res.gnormplus) = 1 ∧
    ((tag tg svc ds a u).2).countP (isReleaseOf Res.gnormplus) = 1 ∧
    ((tag tg svc ds a u).2).head? = some (Event.acquire Res.gnormplus) ∧
    ((tag tg svc ds a u).2).getLast? = some (Event.release Res.gnormplus) ∧
    ((tag tg svc ds a u).2).countP (isAcquireOf Res.goterms)
      = ds.documents.length ∧
    ((tag tg svc ds a u).2).countP (isReleaseOf Res.goterms)
      = ds.documents.length ∧
    ((tag tg svc ds a u).2).countP (isAcquireOf Res.swissprot)
      = (if u then ds.documents.length else 0) ∧
    ((tag tg svc ds a u).2).countP (isReleaseOf Res.swissprot)
      = (if u then ds.documents.length else 0) := by
  have hag := tagDocs_trace_countP tg svc a u (isAcquireOf Res.gnormplus) 0
    (fun docid doc => dE_countP_acq_gnorm svc docid doc u) ds.documents
  have hrg := tagDocs_trace_countP tg svc a u (isReleaseOf Res.gnormplus) 0
    (fun docid doc => dE_countP_rel_gnorm svc docid doc u) ds.documents
  have hago := tagDocs_trace_countP tg svc a u (isAcquireOf Res.goterms) 1
    (fun docid doc => dE_countP_acq_go svc docid doc u) ds.documents
  have hrgo := tagDocs_trace_countP tg svc a u (isReleaseOf Res.goterms) 1
    (fun docid doc => dE_countP_rel_go svc docid doc u) ds.documents
  have hasw := tagDocs_trace_countP tg svc a u (isAcquireOf Res.swissprot)
    (if u then 1 else 0)
    (fun docid doc => dE_countP_acq_sw svc docid doc u) ds.documents
  have hrsw := tagDocs_trace_countP tg svc a u (isReleaseOf Res.swissprot)
    (if u then 1 else 0)
    (fun docid doc => dE_countP_rel_sw svc docid doc u) ds.documents
  refine ⟨?_, ?_, ?_, ?_, ?_, ?_, ?_, ?_⟩
  · rw [tag_trace_eq]
    simp [List.countP_cons, List.countP_append, hag, isAcquireOf]
  · rw [tag_trace_eq]
    simp [List.countP_cons, List.countP_append, hrg, isReleaseOf]
  · rw [tag_trace_eq]
    rfl
  · rw [tag_trace_eq, ← List.cons_append, List.getLast?_concat]
  · rw [tag_trace_eq]
    simp [List.countP_cons, List.countP_append, hago, isAcquireOf]
  · rw [tag_trace_eq]
    simp [List.countP_cons, List.countP_append, hrgo, isReleaseOf]
  · rw [tag_trace_eq]
    cases u <;>
      simp_all [List.countP_cons, List.countP_append, isAcquireOf]
  · rw [tag_trace_eq]
    cases u <;>
      simp_all [List.countP_cons, List.countP_append, isReleaseOf]

/-! ### Claim C5 -/

theorem tagDocs_resolve_empty (tg : TranscriptionFactorTagger)
    (svc : Services) (a : Bool) :
    ∀ (docs : List (String × Document)) (ids : List String),
    Event.resolveCall ids ∈ (tagDocs tg svc a false docs).2 → ids = [] := by
  intro docs
  induction docs with
  | nil => intro ids h; simp [tagDocs] at h
  | cons d rest ih =>
    intro ids h
    have hsplit :
        Event.resolveCall ids ∈ (tagDocument tg svc d.1 d.2 a false).2 ∨
          Event.resolveCall ids ∈ (tagDocs tg svc a false rest).2 := by
      simpa only [tagDocs, List.mem_append] using h
    rcases hsplit with h | h
    · have h' : Event.resolveCall ids ∈ documentEvents svc d.1 d.2 false :=
        h
      cases hm : substrB conclusionMarker (Document.getText d.2) <;>
        simp [documentEvents, hm, genesMappingOf, uniquifyProteins] at h' <;>
          exact h'
    · exact ih ids h

/-- C5, counterexample: with normalization disabled the ontology-resolver
call is not skipped: the one-document trace contains `resolveCall []`
(the resolver is invoked with the empty id set). -/
theorem resolver_not_skipped_counterexample :
    (tag fxTg fxSvc fxDs false false).2
        = [Event.acquire Res.gnormplus, Event.fetchByPmid "d1",
           Event.acquire Res.goterms, Event.resolveCall [],
           Event.release Res.goterms, Event.release Res.gnormplus] ∧
      ((tag fxTg fxSvc fxDs false false).2).countP isResolveCall = 1 := by
  refine ⟨by decide, by decide⟩

/-- C5 (amended): with normalization disabled (step 3 skipped) the
primary-to-secondary mapping is empty, the normalizer is never called,
and every resolver call carries the empty id set — but the resolver is
still called once per document rather than skipped entirely. -/
theorem normalization_disabled_resolver_empty
    (tg : TranscriptionFactorTagger) (svc : Services) (ds : Dataset)
    (a : Bool) :
    (∀ G, genesMappingOf svc false G = []) ∧
    ((tag tg svc ds a false).2).countP isNormalizeCall = 0 ∧
    ((tag tg svc ds a false).2).countP isResolveCall
      = ds.documents.length ∧
    (∀ ids, Event.resolveCall ids ∈ (tag tg svc ds a false).2 →
      ids = []) := by
  have hn := tagDocs_trace_countP tg svc a false isNormalizeCall 0
    (fun docid doc => by simpa using dE_countP_norm svc docid doc false)
    ds.documents
  have hr := tagDocs_trace_countP tg svc a false isResolveCall 1
    (fun docid doc => dE_countP_resolve svc docid doc false) ds.documents
  refine ⟨fun G => rfl, ?_, ?_, ?_⟩
  · rw [tag_trace_eq]
    simp [List.countP_cons, List.countP_append, hn, isNormalizeCall]
  · rw [tag_trace_eq]
    simp [List.countP_cons, List.countP_append, hr, isResolveCall]
  · intro ids h
    rw [tag_trace_eq] at h
    simp only [List.mem_cons, List.mem_append, List.mem_singleton] at h
    rcases h with h | h | h
    · simp at h
    · exact tagDocs_resolve_empty tg svc a ds.documents ids h
    · simp at h

/-- C5, witness for the amended theorem at the one-document run. -/
theorem normalization_disabled_resolver_empty_witness :
    ((tag fxTg fxSvc fxDs false false).2).countP isResolveCall
        = fxDs.documents.length ∧
      ([] : List String) = [] :=
  ⟨(normalization_disabled_resolver_empty fxTg fxSvc fxDs false).2.2.1,
   (normalization_disabled_resolver_empty fxTg fxSvc fxDs false).2.2.2 []
     (by decide)⟩

/-! ### Claim C10 -/

/-- C10: the retrieval mode is decided by the marker-substring test on the
document's concatenated text: when the marker occurs, the mentions used by
the run are those returned for the submitted full text (and the trace
opens with a full-text fetch event); otherwise they are the ones returned
for the document identifier. -/
theorem retrieval_mode_by_marker
    (tg : TranscriptionFactorTagger) (svc : Services) (docid : String)
    (doc : Document) (a u : Bool) :
    (substrB conclusionMarker (Document.getText doc) = true →
      ((tagDocument tg svc docid doc a u).2).head?
          = some (Event.fetchByText docid) ∧
        fetchGenes svc docid doc
          = svc.getGenesForText docid (Document.getText doc)) ∧
    (substrB conclusionMarker (Document.getText doc) = false →
      ((tagDocument tg svc docid doc a u).2).head?
          = some (Event.fetchByPmid docid) ∧
        fetchGenes svc docid doc = svc.getGenesForPmid docid) := by
  constructor <;> intro hm <;>
    exact ⟨by simp [tagDocument, documentEvents, hm],
      by simp [fetchGenes, hm]⟩

/-- C10, witness: the scenario document contains the marker, so its
mentions are fetched by full text. -/
theorem retrieval_mode_by_marker_witness :
    ((tagDocument fxTg fx3Svc "d1" fx3Doc false true).2).head?
        = some (Event.fetchByText "d1") ∧
      fetchGenes fx3Svc "d1" fx3Doc
        = fx3Svc.getGenesForText "d1" (Document.getText fx3Doc) :=
  (retrieval_mode_by_marker fxTg fx3Svc "d1" fx3Doc false true).1 (by decide)

end Relna
